import Mathlib

/-!
Verification model of `src/SubtitleTool.py` (class `SubtitleProcessor`).

Text is modelled as `List Char` (the character sequence of a Python `str`).
Python's exact `float` values are rationals, so fractional seconds are
modelled as `ℚ` with exact arithmetic.  The external OpenAI chat-completion
call of `_translate_block` is modelled as an opaque function
`tr : List Char → List Char` from the request payload to the returned
message content.  File-system effects of `translate_subtitles` are modelled
explicitly: the returned value and the content written to the output file.
-/

/-- Python `str.strip` whitespace test (ASCII whitespace, as used here). -/
def pySpace (c : Char) : Bool :=
  c = ' ' || c = '\t' || c = '\n' || c = '\r' || c = '\x0b' || c = '\x0c'

/-- Python `str.strip()`: remove leading and trailing whitespace. -/
def pyStrip (l : List Char) : List Char :=
  ((l.dropWhile pySpace).reverse.dropWhile pySpace).reverse

/-- Python `str.isdigit()` (restricted to ASCII digits): non-empty and all digits. -/
def pyIsdigit (l : List Char) : Bool :=
  !l.isEmpty && l.all (fun c => c.isDigit)

/-- Python `pat in s` substring test. -/
def containsSeq (pat : List Char) : List Char → Bool
  | [] => pat.isEmpty
  | c :: rest => pat.isPrefixOf (c :: rest) || containsSeq pat rest

/-- The `"-->" in line` test of the parsing loop (line 133 of the source). -/
def hasArrow (l : List Char) : Bool :=
  containsSeq ("-->".data) l

/-- Iteration over the lines of a file, Python style: each yielded line keeps
its trailing newline; a final segment without a newline is yielded as-is. -/
def splitLinesAux : List Char → List Char → List (List Char)
  | [], acc => if acc.isEmpty then [] else [acc.reverse]
  | c :: cs, acc =>
    if c = '\n' then (acc.reverse ++ ['\n']) :: splitLinesAux cs []
    else splitLinesAux cs (c :: acc)

/-- The lines of `content` as `for line in infile` iterates them. -/
def fileLines (content : List Char) : List (List Char) :=
  splitLinesAux content []

/-- State of the line classifier of `translate_subtitles` (lines 127-138):
the closed chunks so far and the currently open chunk (`current_block`). -/
structure PState where
  chunks : List (List Char)
  current : List Char
deriving DecidableEq, Repr

/-- One iteration of the line classifier (lines 128-138 of the source):
a stripped all-digit line closes any open chunk and starts a new one, a
`-->` line and any other non-blank line are appended to the open chunk, and
a stripped-empty line is skipped. -/
def parseLine (st : PState) (line : List Char) : PState :=
  if pyIsdigit (pyStrip line) then
    if st.current.isEmpty then { st with current := st.current ++ line }
    else { chunks := st.chunks ++ [st.current], current := line }
  else if hasArrow line then { st with current := st.current ++ line }
  else if (pyStrip line).isEmpty then st
  else { st with current := st.current ++ line }

/-- The chunk sequence produced by the classifier on a line stream; at
end-of-stream an open chunk is yielded as the final chunk (line 148). -/
def parseStream (lines : List (List Char)) : List (List Char) :=
  let st := lines.foldl parseLine { chunks := [], current := [] }
  if st.current.isEmpty then st.chunks else st.chunks ++ [st.current]

/-- `"\n".join(dialogue_blocks)` (lines 142 and 153 of the source). -/
def joinBlocks (bs : List (List Char)) : List Char :=
  List.intercalate ['\n'] bs

/-- `_translate_block` (lines 165-177): one remote call, whose returned
message content is stripped.  `tr` is the opaque remote translation call. -/
def _translate_block (tr : List Char → List Char) (dialogue_block : List Char) : List Char :=
  pyStrip (tr dialogue_block)

/-- State of the translation loop of `translate_subtitles`: the parser state
(`dialogue_blocks` and `current_block`), the output file content written so
far, and the payloads of the translate calls made so far. -/
structure TState where
  dialogue_blocks : List (List Char)
  current_block : List Char
  out : List Char
  calls : List (List Char)
deriving DecidableEq, Repr

def initTState : TState :=
  { dialogue_blocks := [], current_block := [], out := [], calls := [] }

/-- One iteration of the `for line in infile` loop (lines 127-146): classify
the line, then, if five chunks have accumulated, translate the joined batch
and write the stripped result followed by a blank-line separator. -/
def translate_step (tr : List Char → List Char) (st : TState) (line : List Char) : TState :=
  let p := parseLine { chunks := st.dialogue_blocks, current := st.current_block } line
  let st1 : TState := { st with dialogue_blocks := p.chunks, current_block := p.current }
  if st1.dialogue_blocks.length = 5 then
    { st1 with
      out := st1.out ++ pyStrip (_translate_block tr (joinBlocks st1.dialogue_blocks)) ++ ['\n', '\n']
      calls := st1.calls ++ [joinBlocks st1.dialogue_blocks]
      dialogue_blocks := [] }
  else st1

/-- End of the loop (lines 148-156): append the open chunk, then translate
and write any remaining batch with a single trailing newline. -/
def translate_finish (tr : List Char → List Char) (st : TState) : TState :=
  let st1 :=
    if st.current_block.isEmpty then st
    else { st with dialogue_blocks := st.dialogue_blocks ++ [st.current_block] }
  if st1.dialogue_blocks.isEmpty then st1
  else
    { st1 with
      out := st1.out ++ pyStrip (_translate_block tr (joinBlocks st1.dialogue_blocks)) ++ ['\n']
      calls := st1.calls ++ [joinBlocks st1.dialogue_blocks]
      dialogue_blocks := [] }

/-- The whole translation loop over the lines of the source file. -/
def translate_body (tr : List Char → List Char) (lines : List (List Char)) : TState :=
  translate_finish tr (lines.foldl (translate_step tr) initTState)

/-- Content written to the output file by `translate_subtitles`. -/
def translate_output (tr : List Char → List Char) (content : List Char) : List Char :=
  (translate_body tr (fileLines content)).out

/-- Payloads of the translate calls made by `translate_subtitles`. -/
def translate_calls (tr : List Char → List Char) (content : List Char) : List (List Char) :=
  (translate_body tr (fileLines content)).calls

/-- Python `str.lower()` (ASCII). -/
def pyLower (l : List Char) : List Char :=
  l.map Char.toLower

/-- The stem part of `os.path.splitext` (POSIX): everything before the last
dot of the final path segment, provided that segment has a non-leading dot. -/
def splitextStem (p : List Char) : List Char :=
  let base := (p.reverse.takeWhile (fun c => c ≠ '/')).reverse
  if (base.dropWhile (fun c => c = '.')).contains '.' then
    ((p.reverse.dropWhile (fun c => c ≠ '.')).drop 1).reverse
  else p

/-- Output path of `translate_subtitles` (line 119 of the source):
`os.path.splitext(input_path)[0] + f".{target_language.lower()}.srt"`. -/
def output_path_for (input_path target_language : List Char) : List Char :=
  splitextStem input_path ++ '.' :: (pyLower target_language ++ (".srt".data))

/-- Observable outcome of `translate_subtitles`: the value it returns (the
output path on success, `none` on failure) and the content written to the
output file (`none` when the file was never opened). -/
structure TranslateResult where
  result : Option (List Char)
  written : Option (List Char)
deriving DecidableEq, Repr

/-- `translate_subtitles` (lines 110-163): guard on the configured client and
on the existence of the input file, then run the translation loop.  The two
booleans model `self.openai_client` being set and `os.path.exists(input_path)`. -/
def translate_subtitles (openai_client : Bool) (input_exists : Bool)
    (tr : List Char → List Char) (input_path target_language content : List Char) :
    TranslateResult :=
  if !openai_client then { result := none, written := none }
  else if !input_exists then { result := none, written := none }
  else
    { result := some (output_path_for input_path target_language)
      written := some (translate_output tr content) }

/-- Python `int()` on an exact rational: truncation toward zero. -/
def pyInt (q : ℚ) : ℤ :=
  q.num.tdiv q.den

/-- Python `q % 1` (sign follows the divisor, so `q - floor q`). -/
def pyModOne (q : ℚ) : ℚ :=
  q - (⌊q⌋ : ℤ)

/-- Decimal digits of a natural number (`str(n)` for `n ≥ 0`), via fuel. -/
def natDigitsAux : ℕ → ℕ → List Char
  | 0, _ => []
  | fuel + 1, n =>
    if n < 10 then [Nat.digitChar n]
    else natDigitsAux fuel (n / 10) ++ [Nat.digitChar (n % 10)]

/-- Decimal representation of a natural number. -/
def natDigits (n : ℕ) : List Char :=
  natDigitsAux (n + 1) n

/-- Pad with leading zeros to width `w`. -/
def zeroPad (w : ℕ) (l : List Char) : List Char :=
  List.replicate (w - l.length) '0' ++ l

/-- Python `f"{n:0wd}"`: zero-padded decimal of an integer (sign first). -/
def fmtPad (w : ℕ) (n : ℤ) : List Char :=
  if n < 0 then '-' :: zeroPad (w - 1) (natDigits n.natAbs)
  else zeroPad w (natDigits n.toNat)

/-- `_format_time` (lines 179-184 of the source): milliseconds by truncation
of the fractional part, then successive `divmod` by 60, then zero-padded
`HH:MM:SS,mmm`.  Python `divmod` on ints is floor division and modulus. -/
def _format_time (seconds : ℚ) : List Char :=
  let milliseconds : ℤ := pyInt (pyModOne seconds * 1000)
  let total_seconds : ℤ := pyInt seconds
  let minutes : ℤ := total_seconds.fdiv 60
  let seconds2 : ℤ := total_seconds.fmod 60
  let hours : ℤ := minutes.fdiv 60
  let minutes2 : ℤ := minutes.fmod 60
  fmtPad 2 hours ++ ':' :: (fmtPad 2 minutes2 ++ ':' :: (fmtPad 2 seconds2 ++ ',' :: fmtPad 3 milliseconds))

/-- One timed caption entry.  `stop` is the block's end time (`end` is a
reserved word in Lean). -/
structure SubtitleBlock where
  index : ℕ
  start : ℚ
  stop : ℚ
  text : List Char
deriving DecidableEq

/-- The timecode line `{start} --> {end}` of a serialized block. -/
def timeLine (b : SubtitleBlock) : List Char :=
  _format_time b.start ++ (" --> ".data) ++ _format_time b.stop

/-- Serialization of one block, `f"{i}\n{start} --> {end}\n{text}\n\n"`
(line 97 of the source). -/
def serialize (b : SubtitleBlock) : List Char :=
  natDigits b.index ++ '\n' :: (timeLine b ++ '\n' :: (b.text ++ ['\n', '\n']))

/-- One transcription segment as returned by the speech-to-text model. -/
structure Segment where
  start : ℚ
  stop : ℚ
  text : List Char
deriving DecidableEq

/-- One iteration of the writing loop of `generate_subtitles_with_whisper`
(lines 93-97): 1-based index, formatted times, stripped text. -/
def writeSegment (i : ℕ) (seg : Segment) : List Char :=
  serialize { index := i, start := seg.start, stop := seg.stop, text := pyStrip seg.text }

/-- The writing loop, enumerating segments from index `i`. -/
def generateAux (i : ℕ) : List Segment → List Char
  | [] => []
  | seg :: rest => writeSegment i seg ++ generateAux (i + 1) rest

/-- Content of the `.srt` file written by `generate_subtitles_with_whisper`
for a given segment sequence (`enumerate(result["segments"], start=1)`). -/
def generate_srt_content (segments : List Segment) : List Char :=
  generateAux 1 segments

/-- The batch accumulator step implicit in lines 129-131 and 140-146 of the
source: append the chunk; on reaching five members, emit the batch and reset. -/
def pushAcc (acc : List (List Char)) (chunk : List Char) :
    List (List Char) × Option (List (List Char)) :=
  let acc1 := acc ++ [chunk]
  if acc1.length = 5 then ([], some acc1) else (acc1, none)

/-- The end-of-input flush implicit in lines 151-156: a non-empty open batch
is emitted, an empty one is not. -/
def flushAcc (acc : List (List Char)) : Option (List (List Char)) :=
  if acc.isEmpty then none else some acc

/-- Feed a chunk sequence through `pushAcc`, collecting the emitted batches. -/
def runPush (chunks : List (List Char)) : List (List Char) × List (List (List Char)) :=
  chunks.foldl
    (fun st chunk =>
      let r := pushAcc st.1 chunk
      (r.1, st.2 ++ r.2.toList))
    ([], [])

/-- Output contributed by a sequence of full batches: each group of five
chunks is joined, translated, stripped, and followed by a blank line. -/
def fullBatchesOut (tr : List Char → List Char) : List (List Char) → List Char
  | a :: b :: c :: d :: e :: rest =>
    pyStrip (_translate_block tr (joinBlocks [a, b, c, d, e])) ++
      '\n' :: '\n' :: fullBatchesOut tr rest
  | _ => []

/-- Translate-call payloads of a sequence of full batches. -/
def batchPayloads : List (List Char) → List (List Char)
  | a :: b :: c :: d :: e :: rest => joinBlocks [a, b, c, d, e] :: batchPayloads rest
  | _ => []

/-- The output the code actually produces from a parsed chunk sequence: the
chunks closed before end-of-input (all but the last) are grouped in fives and
written with blank-line separators, and the remaining chunks - between one
and five of them, the final chunk always among them - are flushed as one last
batch written with a single trailing newline. -/
def pipelineOutput (tr : List Char → List Char) (chunks : List (List Char)) : List Char :=
  if chunks.isEmpty then []
  else
    fullBatchesOut tr (chunks.take (5 * ((chunks.length - 1) / 5))) ++
      pyStrip (_translate_block tr (joinBlocks (chunks.drop (5 * ((chunks.length - 1) / 5))))) ++
      ['\n']

/-- The output claim C1 describes: all chunks grouped in fives, every full
group written with a blank-line separator, and only a group of fewer than
five remaining at the end written with a single trailing newline. -/
def claimedOutputC1 (tr : List Char → List Char) (chunks : List (List Char)) : List Char :=
  fullBatchesOut tr (chunks.take (5 * (chunks.length / 5))) ++
    (if chunks.length % 5 = 0 then []
     else pyStrip (_translate_block tr (joinBlocks (chunks.drop (5 * (chunks.length / 5))))) ++
       ['\n'])

/-- A sample subtitle file with `n` entries, used in concrete examples:
entry `i` is `"{i}\na --> b\nt{i}\n\n"`. -/
def sampleSrt (n : ℕ) : List Char :=
  (List.range n).flatMap (fun i =>
    natDigits (i + 1) ++ '\n' ::
      ('a' :: (" --> ".data ++ ('b' :: '\n' :: ('t' :: natDigits (i + 1) ++ ['\n', '\n'])))))

/-- The exact rational value of the IEEE-754 double nearest to 1.2
(`5404319552844595 * 2 ^ -52`, slightly below 1.2).  The program's segment
times are Python floats, so a segment time written `1.2` denotes this value,
not 6/5. -/
def double_1_2 : ℚ :=
  5404319552844595 / 4503599627370496

/-! ## Basic lemmas about the string helpers -/

theorem mem_dropWhile_of_mem {p : Char → Bool} {l : List Char} {c : Char}
    (hc : c ∈ l) (hpc : p c = false) : c ∈ l.dropWhile p := by
  induction l with
  | nil => cases hc
  | cons a l ih =>
    rw [List.dropWhile_cons]
    by_cases ha : p a = true
    · rcases List.mem_cons.mp hc with rfl | h
      · rw [ha] at hpc; cases hpc
      · simp [ha, ih h]
    · simp only [Bool.not_eq_true] at ha
      simp [ha, hc]

theorem mem_pyStrip_of_mem {l : List Char} {c : Char}
    (hc : c ∈ l) (hpc : pySpace c = false) : c ∈ pyStrip l := by
  unfold pyStrip
  rw [List.mem_reverse]
  exact mem_dropWhile_of_mem (by rw [List.mem_reverse]; exact mem_dropWhile_of_mem hc hpc) hpc

theorem pyIsdigit_nil : pyIsdigit [] = false := rfl

theorem ne_nil_of_pyIsdigit_pyStrip {l : List Char}
    (h : pyIsdigit (pyStrip l) = true) : l ≠ [] := by
  intro hl; subst hl; simp [pyStrip, pyIsdigit] at h

theorem containsSeq_append_left {pat : List Char} (x : List Char) {l : List Char}
    (h : containsSeq pat l = true) : containsSeq pat (x ++ l) = true := by
  induction x with
  | nil => exact h
  | cons c x ih => simp [containsSeq, ih]

theorem containsSeq_here {pat : List Char} (hpat : pat ≠ []) (rest : List Char) :
    containsSeq pat (pat ++ rest) = true := by
  cases pat with
  | nil => cases hpat rfl
  | cons p ps =>
    show (containsSeq (p :: ps) ((p :: ps) ++ rest) = true)
    simp only [List.cons_append, containsSeq, Bool.or_eq_true]
    left
    exact List.isPrefixOf_iff_prefix.mpr ⟨rest, by simp⟩

theorem mem_of_containsSeq {pat l : List Char} {c : Char}
    (h : containsSeq pat l = true) (hc : c ∈ pat) : c ∈ l := by
  induction l with
  | nil =>
    simp only [containsSeq, List.isEmpty_iff] at h
    subst h; cases hc
  | cons a l ih =>
    simp only [containsSeq, Bool.or_eq_true] at h
    rcases h with h | h
    · exact (List.isPrefixOf_iff_prefix.mp h).sublist.mem hc
    · exact List.mem_cons_of_mem a (ih h)

theorem hasArrow_dash_mem {l : List Char} (h : hasArrow l = true) : '-' ∈ l :=
  mem_of_containsSeq h (by simp)

theorem hasArrow_eq_false_of_blank {l : List Char} (h : pyStrip l = []) :
    hasArrow l = false := by
  by_contra hne
  simp only [Bool.not_eq_false] at hne
  have := mem_pyStrip_of_mem (hasArrow_dash_mem hne) (by rfl)
  rw [h] at this
  cases this

theorem hasArrow_of_middle (x y : List Char) :
    hasArrow (x ++ (" --> ".data) ++ y) = true := by
  unfold hasArrow
  rw [List.append_assoc]
  apply containsSeq_append_left
  have h5 : (" --> ".data) ++ y = [' '] ++ (("-->".data) ++ (' ' :: y)) := rfl
  rw [h5]
  apply containsSeq_append_left
  exact containsSeq_here (by simp) _

/-! ## Classification behaviour of the line parser -/

theorem parseLine_digit_closes {st : PState} {line : List Char}
    (hd : pyIsdigit (pyStrip line) = true) (hc : st.current ≠ []) :
    parseLine st line = { chunks := st.chunks ++ [st.current], current := line } := by
  simp [parseLine, hd, List.isEmpty_iff, hc]

theorem parseLine_digit_opens {st : PState} {line : List Char}
    (hd : pyIsdigit (pyStrip line) = true) (hc : st.current = []) :
    parseLine st line = { st with current := line } := by
  simp [parseLine, hd, List.isEmpty_iff, hc]

theorem parseLine_blank {st : PState} {line : List Char}
    (hb : pyStrip line = []) : parseLine st line = st := by
  simp [parseLine, hb, pyIsdigit, hasArrow_eq_false_of_blank hb]

theorem parseLine_appends {st : PState} {line : List Char}
    (hd : pyIsdigit (pyStrip line) = false) (hb : pyStrip line ≠ []) :
    parseLine st line = { st with current := st.current ++ line } := by
  by_cases ha : hasArrow line = true
  · simp [parseLine, hd, ha]
  · simp only [Bool.not_eq_true] at ha
    simp [parseLine, hd, ha, List.isEmpty_iff, hb]

theorem parseLine_current_inv {st : PState} {line : List Char}
    (h : st.current = [] → st.chunks = []) :
    (parseLine st line).current = [] → (parseLine st line).chunks = [] := by
  by_cases hd : pyIsdigit (pyStrip line) = true
  · have hl : line ≠ [] := ne_nil_of_pyIsdigit_pyStrip hd
    by_cases hc : st.current = []
    · rw [parseLine_digit_opens hd hc]
      intro h2; cases hl h2
    · rw [parseLine_digit_closes hd hc]
      intro h2; cases hl h2
  · simp only [Bool.not_eq_true] at hd
    by_cases hb : pyStrip line = []
    · rw [parseLine_blank hb]; exact h
    · rw [parseLine_appends hd hb]
      intro h2
      rcases List.append_eq_nil.mp h2 with ⟨h3, -⟩
      exact h h3

theorem parse_foldl_current_inv (lines : List (List Char)) :
    ∀ st : PState, (st.current = [] → st.chunks = []) →
      ((lines.foldl parseLine st).current = [] → (lines.foldl parseLine st).chunks = []) := by
  induction lines with
  | nil => intro st h; exact h
  | cons l lines ih =>
    intro st h
    rw [List.foldl_cons]
    exact ih _ (parseLine_current_inv h)

theorem parseLine_join {st : PState} (line : List Char) :
    (parseLine st line).chunks.flatten ++ (parseLine st line).current =
      st.chunks.flatten ++ st.current ++ (if (pyStrip line).isEmpty then [] else line) := by
  by_cases hb : pyStrip line = []
  · rw [parseLine_blank hb]
    simp [hb]
  · simp only [List.isEmpty_iff, hb, if_neg]
    by_cases hd : pyIsdigit (pyStrip line) = true
    · by_cases hc : st.current = []
      · rw [parseLine_digit_opens hd hc, hc]
        simp
      · rw [parseLine_digit_closes hd hc]
        simp
    · simp only [Bool.not_eq_true] at hd
      rw [parseLine_appends hd hb]
      simp

theorem parse_foldl_flatten (lines : List (List Char)) :
    ∀ st : PState,
      (lines.foldl parseLine st).chunks.flatten ++ (lines.foldl parseLine st).current =
        st.chunks.flatten ++ st.current ++
          (lines.filter (fun l => !(pyStrip l).isEmpty)).flatten := by
  induction lines with
  | nil => intro st; simp
  | cons l lines ih =>
    intro st
    rw [List.foldl_cons, ih]
    by_cases hb : pyStrip l = []
    · have h1 := @parseLine_blank st l hb
      rw [h1]
      simp [List.filter_cons, hb]
    · have h2 := @parseLine_join st l
      simp only [List.isEmpty_iff, hb, if_neg, if_false] at h2
      rw [List.filter_cons, if_pos (by simp [List.isEmpty_iff, hb])]
      have h4 : ((parseLine st l).chunks.flatten ++ (parseLine st l).current) ++
            (List.filter (fun l => !(pyStrip l).isEmpty) lines).flatten =
          (st.chunks.flatten ++ st.current ++ l) ++
            (List.filter (fun l => !(pyStrip l).isEmpty) lines).flatten := by
        rw [h2]
      simpa [List.append_assoc] using h4

/-! ## Batch bookkeeping lemmas -/

theorem fullBatchesOut_append (tr : List Char → List Char) :
    ∀ A : List (List Char), A.length % 5 = 0 → ∀ B : List (List Char),
      fullBatchesOut tr (A ++ B) = fullBatchesOut tr A ++ fullBatchesOut tr B
  | [], _, B => by simp [fullBatchesOut]
  | [a], h, B => by simp at h
  | [a, b], h, B => by simp at h
  | [a, b, c], h, B => by simp at h
  | [a, b, c, d], h, B => by simp at h
  | a :: b :: c :: d :: e :: rest, h, B => by
    have h5 : rest.length % 5 = 0 := by
      simp only [List.length_cons] at h
      omega
    simp only [List.cons_append, fullBatchesOut, List.append_eq]
    rw [fullBatchesOut_append tr rest h5 B]
    simp [List.append_assoc]

theorem batchPayloads_append :
    ∀ A : List (List Char), A.length % 5 = 0 → ∀ B : List (List Char),
      batchPayloads (A ++ B) = batchPayloads A ++ batchPayloads B
  | [], _, B => by simp [batchPayloads]
  | [a], h, B => by simp at h
  | [a, b], h, B => by simp at h
  | [a, b, c], h, B => by simp at h
  | [a, b, c, d], h, B => by simp at h
  | a :: b :: c :: d :: e :: rest, h, B => by
    have h5 : rest.length % 5 = 0 := by
      simp only [List.length_cons] at h
      omega
    simp only [List.cons_append, batchPayloads, List.append_eq]
    rw [batchPayloads_append rest h5 B]

theorem fullBatchesOut_of_length_five (tr : List Char → List Char) {B : List (List Char)}
    (h : B.length = 5) :
    fullBatchesOut tr B = pyStrip (_translate_block tr (joinBlocks B)) ++ ['\n', '\n'] := by
  rcases B with _ | ⟨a, B⟩; · simp at h
  rcases B with _ | ⟨b, B⟩; · simp at h
  rcases B with _ | ⟨c, B⟩; · simp at h
  rcases B with _ | ⟨d, B⟩; · simp at h
  rcases B with _ | ⟨e, B⟩; · simp at h
  rcases B with _ | ⟨f, B⟩
  · rfl
  · simp at h

theorem batchPayloads_of_length_five {B : List (List Char)} (h : B.length = 5) :
    batchPayloads B = [joinBlocks B] := by
  rcases B with _ | ⟨a, B⟩; · simp at h
  rcases B with _ | ⟨b, B⟩; · simp at h
  rcases B with _ | ⟨c, B⟩; · simp at h
  rcases B with _ | ⟨d, B⟩; · simp at h
  rcases B with _ | ⟨e, B⟩; · simp at h
  rcases B with _ | ⟨f, B⟩
  · rfl
  · simp at h

/-! ## The translation loop refines the parser plus batch accumulation -/

theorem translate_step_linked (tr : List Char → List Char) {T : TState} {P : PState}
    (h1 : T.current_block = P.current)
    (h2 : T.dialogue_blocks = P.chunks.drop (5 * (P.chunks.length / 5)))
    (h3 : T.out = fullBatchesOut tr (P.chunks.take (5 * (P.chunks.length / 5))))
    (h4 : T.calls = batchPayloads (P.chunks.take (5 * (P.chunks.length / 5))))
    (h5 : P.current = [] → P.chunks = [])
    (line : List Char) :
    (translate_step tr T line).current_block = (parseLine P line).current ∧
    (translate_step tr T line).dialogue_blocks =
      (parseLine P line).chunks.drop (5 * ((parseLine P line).chunks.length / 5)) ∧
    (translate_step tr T line).out =
      fullBatchesOut tr ((parseLine P line).chunks.take (5 * ((parseLine P line).chunks.length / 5))) ∧
    (translate_step tr T line).calls =
      batchPayloads ((parseLine P line).chunks.take (5 * ((parseLine P line).chunks.length / 5))) ∧
    ((parseLine P line).current = [] → (parseLine P line).chunks = []) := by
  have hTP : ({ chunks := T.dialogue_blocks, current := T.current_block } : PState) =
      { chunks := P.chunks.drop (5 * (P.chunks.length / 5)), current := P.current } := by
    rw [h1, h2]
  have hlen : T.dialogue_blocks.length = P.chunks.length % 5 := by
    rw [h2, List.length_drop]
    omega
  have hk_le : 5 * (P.chunks.length / 5) ≤ P.chunks.length := by omega
  by_cases hb : pyStrip line = []
  · -- blank line: both states unchanged
    rw [@parseLine_blank P line hb]
    unfold translate_step
    rw [hTP, parseLine_blank hb]
    have hno : (P.chunks.drop (5 * (P.chunks.length / 5))).length = P.chunks.length % 5 := by
      rw [List.length_drop]; omega
    rw [if_neg (by rw [hno]; omega)]
    exact ⟨rfl, rfl, h3, h4, h5⟩
  · by_cases hd : pyIsdigit (pyStrip line) = true
    · have hline : line ≠ [] := ne_nil_of_pyIsdigit_pyStrip hd
      by_cases hc : P.current = []
      · -- digit line opening the very first chunk
        have hchunks : P.chunks = [] := h5 hc
        rw [parseLine_digit_opens hd hc]
        unfold translate_step
        rw [hTP, parseLine_digit_opens hd (by exact hc)]
        simp only [hchunks, List.drop_nil, List.take_nil, List.length_nil]
        rw [if_neg (by simp)]
        refine ⟨rfl, by simp, ?_, ?_, ?_⟩
        · simpa [hchunks] using h3
        · simpa [hchunks] using h4
        · intro h6; cases hline h6
      · -- digit line closing the open chunk
        rw [parseLine_digit_closes hd hc]
        unfold translate_step
        rw [hTP, parseLine_digit_closes hd (by exact hc)]
        simp only
        set m := P.chunks.length with hm
        set k := 5 * (m / 5) with hk
        have hnewlen : (P.chunks.drop k ++ [P.current]).length = m % 5 + 1 := by
          rw [List.length_append, List.length_drop]
          simp
          omega
        have hlen' : (P.chunks ++ [P.current]).length = m + 1 := by simp
        by_cases h45 : m % 5 = 4
        · -- the closed chunk completes a batch of five
          rw [if_pos (by rw [hnewlen, h45])]
          have hk' : 5 * ((P.chunks ++ [P.current]).length / 5) = m + 1 := by
            rw [hlen']; omega
          have hsplit : P.chunks ++ [P.current] =
              P.chunks.take k ++ (P.chunks.drop k ++ [P.current]) := by
            rw [← List.append_assoc, List.take_append_drop]
          have htklen : (P.chunks.take k).length = k := by
            rw [List.length_take]
            omega
          have hfive : (P.chunks.drop k ++ [P.current]).length = 5 := by
            rw [hnewlen, h45]
          refine ⟨rfl, ?_, ?_, ?_, ?_⟩
          · rw [hk']
            rw [show (P.chunks ++ [P.current]).drop (m + 1) = [] from
              List.drop_eq_nil_of_le (by rw [hlen'])]
          · rw [hk']
            rw [show (P.chunks ++ [P.current]).take (m + 1) = P.chunks ++ [P.current] from
              List.take_of_length_le (by rw [hlen'])]
            rw [hsplit, fullBatchesOut_append tr _ (by rw [htklen]; omega),
              fullBatchesOut_of_length_five tr hfive, h3]
            simp [List.append_assoc]
          · rw [hk']
            rw [show (P.chunks ++ [P.current]).take (m + 1) = P.chunks ++ [P.current] from
              List.take_of_length_le (by rw [hlen'])]
            rw [hsplit, batchPayloads_append _ (by rw [htklen]; omega),
              batchPayloads_of_length_five hfive, h4]
          · intro h6; cases hline h6
        · -- fewer than five accumulated chunks
          rw [if_neg (by rw [hnewlen]; omega)]
          have hk' : 5 * ((P.chunks ++ [P.current]).length / 5) = k := by
            rw [hlen']; omega
          refine ⟨rfl, ?_, ?_, ?_, ?_⟩
          · rw [hk', List.drop_append_of_le_length hk_le]
          · rw [hk', List.take_append_of_le_length hk_le]
            exact h3
          · rw [hk', List.take_append_of_le_length hk_le]
            exact h4
          · intro h6; cases hline h6
    · -- a non-digit, non-blank line is appended to the open chunk
      simp only [Bool.not_eq_true] at hd
      rw [parseLine_appends hd hb]
      unfold translate_step
      rw [hTP, parseLine_appends hd hb]
      simp only
      rw [if_neg (by rw [List.length_drop]; omega)]
      refine ⟨rfl, rfl, h3, h4, ?_⟩
      · intro h6
        rcases List.append_eq_nil.mp h6 with ⟨h7, -⟩
        exact h5 h7

theorem translate_finish_linked (tr : List Char → List Char) {T : TState} {P : PState}
    (h1 : T.current_block = P.current)
    (h2 : T.dialogue_blocks = P.chunks.drop (5 * (P.chunks.length / 5)))
    (h3 : T.out = fullBatchesOut tr (P.chunks.take (5 * (P.chunks.length / 5))))
    (h5 : P.current = [] → P.chunks = []) :
    (translate_finish tr T).out =
      pipelineOutput tr (if P.current.isEmpty then P.chunks else P.chunks ++ [P.current]) := by
  have hk_le : 5 * (P.chunks.length / 5) ≤ P.chunks.length := by omega
  by_cases hc : P.current = []
  · have hchunks : P.chunks = [] := h5 hc
    have hTc : T.current_block = [] := by rw [h1, hc]
    have hTd : T.dialogue_blocks = [] := by rw [h2, hchunks]; simp
    have hTo : T.out = [] := by rw [h3, hchunks]; simp [fullBatchesOut]
    simp [translate_finish, pipelineOutput, hTc, hTd, hTo, hc, hchunks, fullBatchesOut]
  · have hTc : T.current_block ≠ [] := by rw [h1]; exact hc
    have hne : T.dialogue_blocks ++ [T.current_block] ≠ [] := by simp
    have hout : (translate_finish tr T).out =
        T.out ++ pyStrip (_translate_block tr (joinBlocks (T.dialogue_blocks ++ [T.current_block]))) ++
          ['\n'] := by
      simp [translate_finish, List.isEmpty_iff, hTc, hne]
    rw [hout, if_neg (by simp [List.isEmpty_iff, hc]), h1, h2, h3]
    unfold pipelineOutput
    rw [if_neg (by simp [List.isEmpty_iff])]
    have hk0 : 5 * (((P.chunks ++ [P.current]).length - 1) / 5) =
        5 * (P.chunks.length / 5) := by
      simp
    rw [hk0, List.take_append_of_le_length hk_le, List.drop_append_of_le_length hk_le]

theorem translate_foldl_linked (tr : List Char → List Char) (lines : List (List Char)) :
    (lines.foldl (translate_step tr) initTState).current_block =
        (lines.foldl parseLine (PState.mk [] [])).current ∧
    (lines.foldl (translate_step tr) initTState).dialogue_blocks =
        (lines.foldl parseLine (PState.mk [] [])).chunks.drop
          (5 * ((lines.foldl parseLine (PState.mk [] [])).chunks.length / 5)) ∧
    (lines.foldl (translate_step tr) initTState).out =
        fullBatchesOut tr ((lines.foldl parseLine (PState.mk [] [])).chunks.take
          (5 * ((lines.foldl parseLine (PState.mk [] [])).chunks.length / 5))) ∧
    (lines.foldl (translate_step tr) initTState).calls =
        batchPayloads ((lines.foldl parseLine (PState.mk [] [])).chunks.take
          (5 * ((lines.foldl parseLine (PState.mk [] [])).chunks.length / 5))) ∧
    ((lines.foldl parseLine (PState.mk [] [])).current = [] →
        (lines.foldl parseLine (PState.mk [] [])).chunks = []) := by
  induction lines using List.reverseRecOn with
  | nil => exact ⟨rfl, rfl, rfl, rfl, fun _ => rfl⟩
  | append_singleton ls l ih =>
    obtain ⟨h1, h2, h3, h4, h5⟩ := ih
    simp only [List.foldl_append, List.foldl_cons, List.foldl_nil]
    exact translate_step_linked tr h1 h2 h3 h4 h5 l

theorem translate_body_out (tr : List Char → List Char) (lines : List (List Char)) :
    (translate_body tr lines).out = pipelineOutput tr (parseStream lines) := by
  obtain ⟨h1, h2, h3, h4, h5⟩ := translate_foldl_linked tr lines
  unfold translate_body parseStream
  exact translate_finish_linked tr h1 h2 h3 h5

theorem translate_output_eq (tr : List Char → List Char) (content : List Char) :
    translate_output tr content = pipelineOutput tr (parseStream (fileLines content)) := by
  unfold translate_output
  exact translate_body_out tr (fileLines content)

/-! ## Characterisation of the timecode formatter -/

theorem pyInt_eq_floor {q : ℚ} (hq : 0 ≤ q) : pyInt q = ⌊q⌋ := by
  unfold pyInt
  rw [Rat.floor_def]
  exact Int.tdiv_eq_ediv (Rat.num_nonneg.mpr hq) (by positivity)

theorem fdiv_natCast (m n : ℕ) : ((m : ℤ)).fdiv (n : ℤ) = ((m / n : ℕ) : ℤ) := by
  rw [Int.fdiv_eq_ediv _ (by positivity)]
  rfl

theorem fmod_natCast (m n : ℕ) : ((m : ℤ)).fmod (n : ℤ) = ((m % n : ℕ) : ℤ) := by
  rw [Int.fmod_eq_emod _ (by positivity)]
  rfl

theorem format_time_eq (s : ℚ) (hs : 0 ≤ s) :
    _format_time s =
      fmtPad 2 ((⌊s⌋.toNat / 3600 : ℕ) : ℤ) ++ ':' ::
        (fmtPad 2 ((⌊s⌋.toNat / 60 % 60 : ℕ) : ℤ) ++ ':' ::
          (fmtPad 2 ((⌊s⌋.toNat % 60 : ℕ) : ℤ) ++ ',' ::
            fmtPad 3 ((⌊(s - (⌊s⌋ : ℤ)) * 1000⌋.toNat : ℕ) : ℤ))) := by
  have hfl : 0 ≤ ⌊s⌋ := Int.floor_nonneg.mpr hs
  have hms0 : 0 ≤ (s - (⌊s⌋ : ℤ)) * 1000 := by
    have h1 : (⌊s⌋ : ℚ) ≤ s := Int.floor_le s
    exact mul_nonneg (sub_nonneg.mpr h1) (by norm_num)
  have hmsfl : 0 ≤ ⌊(s - (⌊s⌋ : ℤ)) * 1000⌋ := Int.floor_nonneg.mpr hms0
  unfold _format_time pyModOne
  rw [pyInt_eq_floor hs, pyInt_eq_floor hms0]
  obtain ⟨k, hk⟩ := Int.eq_ofNat_of_zero_le hmsfl
  obtain ⟨t, ht⟩ := Int.eq_ofNat_of_zero_le hfl
  rw [hk, ht]
  simp only [Int.toNat_natCast]
  rw [show ((60 : ℤ)) = ((60 : ℕ) : ℤ) from rfl]
  rw [fdiv_natCast, fmod_natCast, fdiv_natCast, fmod_natCast, Nat.div_div_eq_div_mul]

theorem format_time_concrete (s : ℚ) (t ms : ℕ)
    (hs : 0 ≤ s) (h1 : ⌊s⌋ = (t : ℤ))
    (h2 : ⌊(s - ((t : ℤ) : ℚ)) * 1000⌋ = (ms : ℤ)) :
    _format_time s =
      fmtPad 2 ((t / 3600 : ℕ) : ℤ) ++ ':' ::
        (fmtPad 2 ((t / 60 % 60 : ℕ) : ℤ) ++ ':' ::
          (fmtPad 2 ((t % 60 : ℕ) : ℤ) ++ ',' :: fmtPad 3 ((ms : ℕ) : ℤ))) := by
  rw [format_time_eq s hs, h1, h2]
  simp only [Int.toNat_natCast]

/-! ## Serialisation round-trip support -/

theorem splitLinesAux_append {a : List Char} (ha : '\n' ∉ a) (rest : List Char) :
    ∀ acc : List Char,
      splitLinesAux (a ++ '\n' :: rest) acc =
        (acc.reverse ++ a ++ ['\n']) :: splitLinesAux rest [] := by
  induction a with
  | nil => intro acc; simp [splitLinesAux]
  | cons c a ih =>
    intro acc
    have hc : c ≠ '\n' := fun h => ha (h ▸ List.mem_cons_self c a)
    have ha' : '\n' ∉ a := fun h => ha (List.mem_cons_of_mem c h)
    simp only [List.cons_append, splitLinesAux, if_neg hc, List.append_eq]
    rw [ih ha']
    simp

theorem fileLines_cons {a : List Char} (ha : '\n' ∉ a) (rest : List Char) :
    fileLines (a ++ '\n' :: rest) = (a ++ ['\n']) :: fileLines rest := by
  unfold fileLines
  rw [splitLinesAux_append ha rest []]
  simp

theorem dropWhile_eq_self_of_not_space {l : List Char}
    (h : ∀ c ∈ l, pySpace c = false) : l.dropWhile pySpace = l := by
  cases l with
  | nil => rfl
  | cons a l => simp [List.dropWhile_cons, h a (List.mem_cons_self a l)]

theorem pyStrip_eq_self_of_not_space {l : List Char}
    (h : ∀ c ∈ l, pySpace c = false) : pyStrip l = l := by
  unfold pyStrip
  rw [dropWhile_eq_self_of_not_space h,
    dropWhile_eq_self_of_not_space (fun c hc => h c (List.mem_reverse.mp hc)), List.reverse_reverse]

theorem dropWhile_ne_nil_of_pyStrip {l : List Char} (h : pyStrip l ≠ []) :
    l.dropWhile pySpace ≠ [] := by
  intro h0
  apply h
  unfold pyStrip
  rw [h0]
  rfl

theorem pyStrip_append_newline {l : List Char} (h : pyStrip l ≠ []) :
    pyStrip (l ++ ['\n']) = pyStrip l := by
  have h0 := dropWhile_ne_nil_of_pyStrip h
  unfold pyStrip
  rw [List.dropWhile_append]
  rw [if_neg (by simp [List.isEmpty_iff, h0])]
  have : (l.dropWhile pySpace ++ ['\n']).reverse = '\n' :: (l.dropWhile pySpace).reverse := by
    simp
  rw [this, List.dropWhile_cons, if_pos (by rfl)]

theorem pyStrip_not_space_append_newline {l : List Char}
    (h : ∀ c ∈ l, pySpace c = false) (hne : l ≠ []) :
    pyStrip (l ++ ['\n']) = l := by
  rw [pyStrip_append_newline, pyStrip_eq_self_of_not_space h]
  rw [pyStrip_eq_self_of_not_space h]
  exact hne

theorem mem_natDigitsAux {c : Char} :
    ∀ fuel n : ℕ, c ∈ natDigitsAux fuel n →
      c ∈ ['0', '1', '2', '3', '4', '5', '6', '7', '8', '9'] := by
  intro fuel
  induction fuel with
  | zero => intro n h; cases h
  | succ fuel ih =>
    intro n h
    unfold natDigitsAux at h
    by_cases h10 : n < 10
    · rw [if_pos h10] at h
      rcases List.mem_singleton.mp h with rfl
      have hall : ∀ m : ℕ, m < 10 →
          Nat.digitChar m ∈ ['0', '1', '2', '3', '4', '5', '6', '7', '8', '9'] := by decide
      exact hall n h10
    · rw [if_neg h10] at h
      rcases List.mem_append.mp h with h | h
      · exact ih _ h
      · rcases List.mem_singleton.mp h with rfl
        have hall : ∀ m : ℕ, m < 10 →
            Nat.digitChar m ∈ ['0', '1', '2', '3', '4', '5', '6', '7', '8', '9'] := by decide
        exact hall _ (Nat.mod_lt _ (by norm_num))

theorem mem_natDigits {c : Char} {n : ℕ} (h : c ∈ natDigits n) :
    c ∈ ['0', '1', '2', '3', '4', '5', '6', '7', '8', '9'] :=
  mem_natDigitsAux _ n h

theorem natDigits_ne_nil (n : ℕ) : natDigits n ≠ [] := by
  unfold natDigits natDigitsAux
  by_cases h10 : n < 10
  · simp [h10]
  · simp [h10]

theorem natDigits_not_space {n : ℕ} : ∀ c ∈ natDigits n, pySpace c = false := by
  intro c hc
  have hall : ∀ x ∈ ['0', '1', '2', '3', '4', '5', '6', '7', '8', '9'], pySpace x = false := by
    decide
  exact hall c (mem_natDigits hc)

theorem pyIsdigit_natDigits (n : ℕ) : pyIsdigit (natDigits n) = true := by
  unfold pyIsdigit
  rw [Bool.and_eq_true]
  constructor
  · simp [List.isEmpty_iff, natDigits_ne_nil n]
  · rw [List.all_eq_true]
    intro c hc
    have hall : ∀ x ∈ ['0', '1', '2', '3', '4', '5', '6', '7', '8', '9'], x.isDigit = true := by
      decide
    exact hall c (mem_natDigits hc)

theorem mem_zeroPad {w : ℕ} {l : List Char} {c : Char} (h : c ∈ zeroPad w l) :
    c = '0' ∨ c ∈ l := by
  unfold zeroPad at h
  rcases List.mem_append.mp h with h | h
  · exact Or.inl (List.eq_of_mem_replicate h)
  · exact Or.inr h

theorem mem_fmtPad {w : ℕ} {n : ℤ} {c : Char} (h : c ∈ fmtPad w n) :
    c ∈ ['-', '0', '1', '2', '3', '4', '5', '6', '7', '8', '9'] := by
  unfold fmtPad at h
  split at h
  · rcases List.mem_cons.mp h with rfl | h
    · simp
    · rcases mem_zeroPad h with rfl | h
      · simp
      · simp [mem_natDigits h, List.mem_cons]
  · rcases mem_zeroPad h with rfl | h
    · simp
    · simp [mem_natDigits h, List.mem_cons]

theorem mem_format_time {q : ℚ} {c : Char} (h : c ∈ _format_time q) :
    c ∈ [':', ',', '-', '0', '1', '2', '3', '4', '5', '6', '7', '8', '9'] := by
  unfold _format_time at h
  have hsub : ∀ x : Char, x ∈ ['-', '0', '1', '2', '3', '4', '5', '6', '7', '8', '9'] →
      x ∈ [':', ',', '-', '0', '1', '2', '3', '4', '5', '6', '7', '8', '9'] := by decide
  rcases List.mem_append.mp h with h | h
  · exact hsub c (mem_fmtPad h)
  · rcases List.mem_cons.mp h with rfl | h
    · simp
    · rcases List.mem_append.mp h with h | h
      · exact hsub c (mem_fmtPad h)
      · rcases List.mem_cons.mp h with rfl | h
        · simp
        · rcases List.mem_append.mp h with h | h
          · exact hsub c (mem_fmtPad h)
          · rcases List.mem_cons.mp h with rfl | h
            · simp
            · exact hsub c (mem_fmtPad h)

theorem newline_not_mem_format_time (q : ℚ) : '\n' ∉ _format_time q := by
  intro h
  have := mem_format_time h
  revert this
  decide

theorem newline_not_mem_timeLine (b : SubtitleBlock) : '\n' ∉ timeLine b := by
  intro h
  unfold timeLine at h
  rcases List.mem_append.mp h with h | h
  · rcases List.mem_append.mp h with h | h
    · exact newline_not_mem_format_time b.start h
    · revert h; decide
  · exact newline_not_mem_format_time b.stop h

theorem dash_mem_timeLine (b : SubtitleBlock) : '-' ∈ timeLine b := by
  unfold timeLine
  refine List.mem_append.mpr (Or.inl (List.mem_append.mpr (Or.inr ?_)))
  decide

theorem pyIsdigit_eq_false_of_mem {l : List Char} {c : Char}
    (hc : c ∈ l) (hd : c.isDigit = false) : pyIsdigit l = false := by
  have hall : l.all (fun x => x.isDigit) = false := by
    by_contra h
    simp only [Bool.not_eq_false, List.all_eq_true] at h
    rw [h c hc] at hd
    cases hd
  simp [pyIsdigit, hall]

theorem timeLine_classify (b : SubtitleBlock) :
    pyIsdigit (pyStrip (timeLine b ++ ['\n'])) = false ∧
      hasArrow (timeLine b ++ ['\n']) = true := by
  constructor
  · have hmem : '-' ∈ timeLine b ++ ['\n'] :=
      List.mem_append.mpr (Or.inl (dash_mem_timeLine b))
    have hstrip : '-' ∈ pyStrip (timeLine b ++ ['\n']) :=
      mem_pyStrip_of_mem hmem (by decide)
    exact pyIsdigit_eq_false_of_mem hstrip (by decide)
  · unfold timeLine
    rw [show _format_time b.start ++ (" --> ".data) ++ _format_time b.stop ++ ['\n'] =
      _format_time b.start ++ (" --> ".data) ++ (_format_time b.stop ++ ['\n']) by
        simp [List.append_assoc]]
    exact hasArrow_of_middle _ _

theorem newline_not_mem_natDigits (n : ℕ) : '\n' ∉ natDigits n := by
  intro h
  exact absurd (natDigits_not_space _ h) (by decide)

theorem fileLines_serialize (b : SubtitleBlock) (h1 : '\n' ∉ b.text) :
    fileLines (serialize b) =
      [natDigits b.index ++ ['\n'], timeLine b ++ ['\n'], b.text ++ ['\n'], ['\n']] := by
  unfold serialize
  rw [fileLines_cons (newline_not_mem_natDigits b.index)]
  rw [fileLines_cons (newline_not_mem_timeLine b)]
  rw [show b.text ++ ['\n', '\n'] = b.text ++ '\n' :: ['\n'] from rfl]
  rw [fileLines_cons h1]
  rfl

theorem serialize_parse_roundtrip (b : SubtitleBlock)
    (h1 : '\n' ∉ b.text) (h2 : pyStrip b.text ≠ [])
    (h3 : pyIsdigit (pyStrip b.text) = false) :
    parseStream (fileLines (serialize b)) =
      [natDigits b.index ++ '\n' :: (timeLine b ++ '\n' :: (b.text ++ ['\n']))] := by
  have hd1 : pyIsdigit (pyStrip (natDigits b.index ++ ['\n'])) = true := by
    rw [pyStrip_not_space_append_newline natDigits_not_space (natDigits_ne_nil _)]
    exact pyIsdigit_natDigits _
  have hd2 : pyIsdigit (pyStrip (timeLine b ++ ['\n'])) = false := (timeLine_classify b).1
  have hs2 : pyStrip (timeLine b ++ ['\n']) ≠ [] := by
    intro h0
    have hmem : '-' ∈ pyStrip (timeLine b ++ ['\n']) :=
      mem_pyStrip_of_mem (List.mem_append.mpr (Or.inl (dash_mem_timeLine b))) (by decide)
    rw [h0] at hmem
    cases hmem
  have hd3 : pyIsdigit (pyStrip (b.text ++ ['\n'])) = false := by
    rw [pyStrip_append_newline h2]
    exact h3
  have hs3 : pyStrip (b.text ++ ['\n']) ≠ [] := by
    rw [pyStrip_append_newline h2]
    exact h2
  have hfold :
      List.foldl parseLine { chunks := [], current := [] }
        [natDigits b.index ++ ['\n'], timeLine b ++ ['\n'], b.text ++ ['\n'], ['\n']] =
      { chunks := [],
        current := ((natDigits b.index ++ ['\n']) ++ (timeLine b ++ ['\n'])) ++ (b.text ++ ['\n']) } := by
    simp only [List.foldl_cons, List.foldl_nil]
    rw [parseLine_digit_opens hd1 rfl]
    rw [parseLine_appends hd2 hs2]
    rw [parseLine_appends hd3 hs3]
    rw [parseLine_blank (by decide)]
  rw [fileLines_serialize b h1]
  unfold parseStream
  rw [hfold]
  rw [if_neg (by simp [List.isEmpty_iff])]
  simp [List.append_assoc]

/-! ## Assembler and empty-input lemmas -/

theorem generateAux_append (segs : List Segment) (s : Segment) :
    ∀ i : ℕ, generateAux i (segs ++ [s]) = generateAux i segs ++ writeSegment (i + segs.length) s := by
  induction segs with
  | nil => intro i; simp [generateAux]
  | cons a segs ih =>
    intro i
    simp only [List.cons_append, generateAux, List.append_assoc, List.append_eq]
    rw [ih (i + 1)]
    have : i + 1 + segs.length = i + (segs.length + 1) := by omega
    rw [this]
    simp

theorem translate_step_blank (tr : List Char → List Char) {l : List Char}
    (hb : pyStrip l = []) : translate_step tr initTState l = initTState := by
  unfold translate_step
  rw [parseLine_blank hb]
  rfl

theorem translate_body_blank (tr : List Char → List Char) (lines : List (List Char))
    (h : ∀ l ∈ lines, pyStrip l = []) :
    translate_body tr lines = initTState := by
  have hfold : lines.foldl (translate_step tr) initTState = initTState := by
    induction lines with
    | nil => rfl
    | cons l ls ih =>
      rw [List.foldl_cons, translate_step_blank tr (h l (List.mem_cons_self l ls))]
      exact ih (fun x hx => h x (List.mem_cons_of_mem l hx))
  unfold translate_body
  rw [hfold]
  rfl

/-! ## Concrete timecode values -/

theorem format_time_0 : _format_time 0 = ("00:00:00,000".data) := by
  rw [format_time_concrete 0 0 0 le_rfl (by norm_num) (by norm_num)]
  decide

theorem format_time_1 : _format_time 1 = ("00:00:01,000".data) := by
  rw [format_time_concrete 1 1 0 (by norm_num) (by norm_num) (by norm_num)]
  decide

theorem format_time_2 : _format_time 2 = ("00:00:02,000".data) := by
  rw [format_time_concrete 2 2 0 (by norm_num) (by norm_num) (by norm_num)]
  decide


theorem format_time_3661_5 : _format_time (3661.5 : ℚ) = ("01:01:01,500".data) := by
  rw [format_time_concrete _ 3661 500 (by norm_num) (by norm_num) (by norm_num)]
  decide

theorem format_time_59_9994 : _format_time (59.9994 : ℚ) = ("00:00:59,999".data) := by
  rw [format_time_concrete _ 59 999 (by norm_num) (by norm_num) (by norm_num)]
  decide

theorem format_time_360000 : _format_time 360000 = ("100:00:00,000".data) := by
  rw [format_time_concrete _ 360000 0 (by norm_num) (by norm_num) (by norm_num)]
  decide

theorem pyStrip_ne_nil_of_hasArrow {l : List Char} (h : hasArrow l = true) :
    pyStrip l ≠ [] := by
  intro h0
  rw [hasArrow_eq_false_of_blank h0] at h
  cases h

/-- Formatting the actual float value of `1.2`: its fractional part times 1000
is 199.99999999999994..., which truncates to millisecond field 199. -/
theorem format_time_double_1_2 : _format_time double_1_2 = ("00:00:01,199".data) := by
  rw [format_time_concrete double_1_2 1 199 (by unfold double_1_2; norm_num)
    (by unfold double_1_2; norm_num) (by unfold double_1_2; norm_num)]
  decide

theorem writeSegment_hi :
    writeSegment 1 { start := 0, stop := double_1_2, text := (" Hi ".data) } =
      ("1\n00:00:00,000 --> 00:00:01,199\nHi\n\n".data) := by
  show natDigits 1 ++ '\n' ::
      ((_format_time 0 ++ (" --> ".data) ++ _format_time double_1_2) ++ '\n' ::
        (pyStrip (" Hi ".data) ++ ['\n', '\n'])) =
    ("1\n00:00:00,000 --> 00:00:01,199\nHi\n\n".data)
  rw [format_time_0, format_time_double_1_2]
  decide

theorem writeSegment_there :
    writeSegment 2 { start := double_1_2, stop := 2, text := ("there".data) } =
      ("2\n00:00:01,199 --> 00:00:02,000\nthere\n\n".data) := by
  show natDigits 2 ++ '\n' ::
      ((_format_time double_1_2 ++ (" --> ".data) ++ _format_time 2) ++ '\n' ::
        (pyStrip ("there".data) ++ ['\n', '\n'])) =
    ("2\n00:00:01,199 --> 00:00:02,000\nthere\n\n".data)
  rw [format_time_double_1_2, format_time_2]
  decide

/-! ## Claims -/

/-- C1 (amended): for every source file and every configured translate function,
the output file content is: the chunks closed before end-of-input (all but the
last one) grouped into full batches of five, each written as the trimmed
translate result of the batch joined by newlines followed by a blank-line
separator, and then the flush batch - the remaining chunks together with the
final chunk, between one and five chunks and possibly a full five - written as
its trimmed translate result followed by a single trailing newline.  Whenever
the chunk count is not a positive multiple of five this grouping coincides
with the claimed grouping of all chunks into fives with only a short batch
left over at the end. -/
theorem claim_C1 :
    (∀ (tr : List Char → List Char) (content : List Char),
        translate_output tr content = pipelineOutput tr (parseStream (fileLines content))) ∧
    (∀ (tr : List Char → List Char) (chunks : List (List Char)),
        chunks.length % 5 ≠ 0 → pipelineOutput tr chunks = claimedOutputC1 tr chunks) := by
  constructor
  · exact translate_output_eq
  · intro tr chunks h
    unfold pipelineOutput claimedOutputC1
    by_cases he : chunks.isEmpty
    · rw [List.isEmpty_iff] at he
      subst he
      simp at h
    · rw [if_neg he]
      have hn : chunks.length ≠ 0 := by
        rw [List.isEmpty_iff] at he
        simpa [List.length_eq_zero] using he
      have hk : 5 * ((chunks.length - 1) / 5) = 5 * (chunks.length / 5) := by omega
      rw [hk, if_neg h]
      simp [List.append_assoc]

theorem claim_C1_witness :
    pipelineOutput (fun l => l) [['a']] = claimedOutputC1 (fun l => l) [['a']] :=
  claim_C1.2 (fun l => l) [['a']] (by decide)

set_option maxRecDepth 10000 in
set_option maxHeartbeats 2000000 in
/-- C1 counterexample: for the five-entry file `sampleSrt 5` and the identity
translate function the code's output differs from the claimed output (one full
batch of five written with a blank-line separator and no partial batch): the
code flushes all five entries as the final batch and ends the file with a
single newline. -/
theorem claim_C1_counterexample :
    translate_output (fun l => l) (sampleSrt 5) ≠
      claimedOutputC1 (fun l => l) (parseStream (fileLines (sampleSrt 5))) := by
  decide

/-- C2 (amended): when the parse yields a chunk count that is a positive
multiple of five, all batches except the last are completed by the
accumulation during streaming and written with the blank-line separator, but
the last five chunks are returned by the end-of-input flush as one final full
batch written with a single trailing newline - not, as claimed, completed by
push and written with the blank-line separator. -/
theorem claim_C2 (tr : List Char → List Char) (content : List Char)
    (h5 : (parseStream (fileLines content)).length % 5 = 0)
    (hne : parseStream (fileLines content) ≠ []) :
    translate_output tr content =
      fullBatchesOut tr ((parseStream (fileLines content)).take
          ((parseStream (fileLines content)).length - 5)) ++
        pyStrip (_translate_block tr (joinBlocks
          ((parseStream (fileLines content)).drop
            ((parseStream (fileLines content)).length - 5)))) ++ ['\n'] := by
  rw [translate_output_eq]
  unfold pipelineOutput
  rw [if_neg (by simp [List.isEmpty_iff, hne])]
  have hlen : (parseStream (fileLines content)).length ≠ 0 :=
    fun h0 => hne (List.length_eq_zero.mp h0)
  have hk : 5 * (((parseStream (fileLines content)).length - 1) / 5) =
      (parseStream (fileLines content)).length - 5 := by omega
  rw [hk]

set_option maxRecDepth 10000 in
set_option maxHeartbeats 2000000 in
theorem claim_C2_witness :
    (parseStream (fileLines (sampleSrt 5))).length % 5 = 0 ∧
    translate_output (fun l => l) (sampleSrt 5) =
      fullBatchesOut (fun l => l) ((parseStream (fileLines (sampleSrt 5))).take
          ((parseStream (fileLines (sampleSrt 5))).length - 5)) ++
        pyStrip (_translate_block (fun l => l) (joinBlocks
          ((parseStream (fileLines (sampleSrt 5))).drop
            ((parseStream (fileLines (sampleSrt 5))).length - 5)))) ++ ['\n'] :=
  ⟨by decide, claim_C2 (fun l => l) (sampleSrt 5) (by decide) (by decide)⟩

set_option maxRecDepth 10000 in
set_option maxHeartbeats 2000000 in
/-- C2 counterexample: `sampleSrt 10` parses into ten chunks, a positive
multiple of five, yet the output is not the claimed one in which every batch
is completed by push and written with a blank-line separator: the second full
batch is flushed at end-of-input with a single trailing newline. -/
theorem claim_C2_counterexample :
    (parseStream (fileLines (sampleSrt 10))).length = 10 ∧
    translate_output (fun l => l) (sampleSrt 10) ≠
      fullBatchesOut (fun l => l) (parseStream (fileLines (sampleSrt 10))) :=
  ⟨by decide, by decide⟩

set_option maxRecDepth 10000 in
set_option maxHeartbeats 2000000 in
/-- C4: the line classifier handles every line in order - an entirely numeric
stripped line closes any open chunk and starts a new one, a line containing
`-->` is appended, a stripped-empty line is ignored, any other line is
appended - at end-of-stream an open chunk is yielded, and on the given
two-entry input the parse yields exactly the two chunks with no blank line
inside either. -/
theorem claim_C4 :
    (∀ (st : PState) (line : List Char),
        pyIsdigit (pyStrip line) = true → st.current ≠ [] →
        parseLine st line = { chunks := st.chunks ++ [st.current], current := line }) ∧
    (∀ (st : PState) (line : List Char),
        pyIsdigit (pyStrip line) = false → hasArrow line = true →
        parseLine st line = { st with current := st.current ++ line }) ∧
    (∀ (st : PState) (line : List Char),
        pyStrip line = [] → parseLine st line = st) ∧
    (∀ (st : PState) (line : List Char),
        pyIsdigit (pyStrip line) = false → hasArrow line = false → pyStrip line ≠ [] →
        parseLine st line = { st with current := st.current ++ line }) ∧
    (∀ lines : List (List Char),
        (lines.foldl parseLine { chunks := [], current := [] }).current ≠ [] →
        parseStream lines =
          (lines.foldl parseLine { chunks := [], current := [] }).chunks ++
            [(lines.foldl parseLine { chunks := [], current := [] }).current]) ∧
    parseStream (fileLines
        ("1\n00:00:00,000 --> 00:00:01,000\nHello\n\n2\n00:00:01,000 --> 00:00:02,000\nWorld\n".data)) =
      [("1\n00:00:00,000 --> 00:00:01,000\nHello\n".data),
       ("2\n00:00:01,000 --> 00:00:02,000\nWorld\n".data)] := by
  refine ⟨?_, ?_, ?_, ?_, ?_, by decide⟩
  · intro st line hd hc
    exact parseLine_digit_closes hd hc
  · intro st line hd ha
    exact parseLine_appends hd (pyStrip_ne_nil_of_hasArrow ha)
  · intro st line hb
    exact parseLine_blank hb
  · intro st line hd _ hb
    exact parseLine_appends hd hb
  · intro lines h
    unfold parseStream
    rw [if_neg (by simp [List.isEmpty_iff, h])]

theorem claim_C4_witness :
    parseLine { chunks := [], current := ("x".data) } (" \n".data) =
      { chunks := [], current := ("x".data) } :=
  claim_C4.2.2.1 { chunks := [], current := ("x".data) } (" \n".data) (by decide)

set_option maxRecDepth 10000 in
set_option maxHeartbeats 2000000 in
/-- C5: feeding any twelve chunks through the batch accumulation step returns
exactly the two full batches of five in order, the end-of-input flush returns
the final batch of the remaining two chunks, every chunk lands in exactly one
batch in its original relative order, and flushing after zero pushes returns
no batch. -/
theorem claim_C5 :
    (∀ c1 c2 c3 c4 c5 c6 c7 c8 c9 c10 c11 c12 : List Char,
      (runPush [c1, c2, c3, c4, c5, c6, c7, c8, c9, c10, c11, c12]).2 =
          [[c1, c2, c3, c4, c5], [c6, c7, c8, c9, c10]] ∧
      flushAcc (runPush [c1, c2, c3, c4, c5, c6, c7, c8, c9, c10, c11, c12]).1 =
          some [c11, c12] ∧
      (runPush [c1, c2, c3, c4, c5, c6, c7, c8, c9, c10, c11, c12]).2.flatten ++ [c11, c12] =
          [c1, c2, c3, c4, c5, c6, c7, c8, c9, c10, c11, c12]) ∧
    flushAcc (runPush []).1 = none := by
  refine ⟨fun c1 c2 c3 c4 c5 c6 c7 c8 c9 c10 c11 c12 => ⟨?_, ?_, ?_⟩, rfl⟩ <;>
    simp [runPush, pushAcc, flushAcc]

/-- C6: with no translation capability configured, or a missing source file,
`translate_subtitles` returns no result and never opens or writes the output
file. -/
theorem claim_C6 (openai_client input_exists : Bool) (tr : List Char → List Char)
    (input_path target_language content : List Char)
    (h : openai_client = false ∨ input_exists = false) :
    translate_subtitles openai_client input_exists tr input_path target_language content =
      { result := none, written := none } := by
  rcases h with rfl | rfl
  · rfl
  · cases openai_client <;> rfl

theorem claim_C6_witness :
    translate_subtitles false true (fun l => l) ("a.srt".data) ("French".data) [] =
      { result := none, written := none } :=
  claim_C6 false true (fun l => l) ("a.srt".data) ("French".data) [] (Or.inl rfl)

/-- C3 (amended): serializing a block and parsing it back yields exactly one
chunk consisting of its index line, its timecode line and its text line, for
every block whose single-line text does not strip to the empty string and is
not entirely numeric digits after stripping - an all-digit text line would be
classified as an index line and open a second chunk. -/
theorem claim_C3 (b : SubtitleBlock) (h1 : '\n' ∉ b.text) (h2 : pyStrip b.text ≠ [])
    (h3 : pyIsdigit (pyStrip b.text) = false) :
    parseStream (fileLines (serialize b)) =
      [natDigits b.index ++ '\n' :: (timeLine b ++ '\n' :: (b.text ++ ['\n']))] :=
  serialize_parse_roundtrip b h1 h2 h3

theorem claim_C3_witness :
    parseStream (fileLines (serialize { index := 1, start := 0, stop := 1, text := ("Hello".data) })) =
      [natDigits 1 ++ '\n' ::
        (timeLine { index := 1, start := 0, stop := 1, text := ("Hello".data) } ++ '\n' ::
          (("Hello".data) ++ ['\n']))] :=
  claim_C3 { index := 1, start := 0, stop := 1, text := ("Hello".data) }
    (by decide) (by decide) (by decide)

set_option maxRecDepth 10000 in
set_option maxHeartbeats 2000000 in
/-- C3 counterexample: the block with index 1, times 0 and 1 and the non-empty
single-line text "2" serializes and parses back into two chunks, not one - the
text line "2" is entirely numeric, closes the chunk, and opens a second one. -/
theorem claim_C3_counterexample :
    ({ index := 1, start := 0, stop := 1, text := ['2'] } : SubtitleBlock).text ≠ [] ∧
    '\n' ∉ ({ index := 1, start := 0, stop := 1, text := ['2'] } : SubtitleBlock).text ∧
    (parseStream (fileLines
      (serialize { index := 1, start := 0, stop := 1, text := ['2'] }))).length = 2 := by
  refine ⟨by decide, by decide, ?_⟩
  have hs : serialize { index := 1, start := 0, stop := 1, text := ['2'] } =
      ("1\n00:00:00,000 --> 00:00:01,000\n2\n\n".data) := by
    unfold serialize timeLine
    simp only [format_time_0, format_time_1]
    decide
  rw [hs]
  decide

/-- C7: the timecode formatter maps 0 to 00:00:00,000, 3661.5 to 01:01:01,500
and 59.9994 to 00:00:59,999 (milliseconds truncated, not rounded), pads each
field with zeros, leaves hours unbounded (360000 seconds prints as hour 100),
and for every non-negative input the millisecond field is the floor of the
fractional part times 1000, hence never exceeds it. -/
theorem claim_C7 :
    _format_time 0 = ("00:00:00,000".data) ∧
    _format_time (3661.5 : ℚ) = ("01:01:01,500".data) ∧
    _format_time (59.9994 : ℚ) = ("00:00:59,999".data) ∧
    _format_time 360000 = ("100:00:00,000".data) ∧
    (∀ s : ℚ, 0 ≤ s →
      _format_time s =
        fmtPad 2 ((⌊s⌋.toNat / 3600 : ℕ) : ℤ) ++ ':' ::
          (fmtPad 2 ((⌊s⌋.toNat / 60 % 60 : ℕ) : ℤ) ++ ':' ::
            (fmtPad 2 ((⌊s⌋.toNat % 60 : ℕ) : ℤ) ++ ',' ::
              fmtPad 3 ((⌊(s - (⌊s⌋ : ℤ)) * 1000⌋.toNat : ℕ) : ℤ))) ∧
      ((⌊(s - (⌊s⌋ : ℤ)) * 1000⌋ : ℚ) ≤ (s - (⌊s⌋ : ℤ)) * 1000)) :=
  ⟨format_time_0, format_time_3661_5, format_time_59_9994, format_time_360000,
    fun s hs => ⟨format_time_eq s hs, Int.floor_le _⟩⟩

theorem claim_C7_witness :
    _format_time (0 : ℚ) =
      fmtPad 2 ((⌊(0 : ℚ)⌋.toNat / 3600 : ℕ) : ℤ) ++ ':' ::
        (fmtPad 2 ((⌊(0 : ℚ)⌋.toNat / 60 % 60 : ℕ) : ℤ) ++ ':' ::
          (fmtPad 2 ((⌊(0 : ℚ)⌋.toNat % 60 : ℕ) : ℤ) ++ ',' ::
            fmtPad 3 ((⌊((0 : ℚ) - (⌊(0 : ℚ)⌋ : ℤ)) * 1000⌋.toNat : ℕ) : ℤ))) ∧
    ((⌊((0 : ℚ) - (⌊(0 : ℚ)⌋ : ℤ)) * 1000⌋ : ℚ) ≤ ((0 : ℚ) - (⌊(0 : ℚ)⌋ : ℤ)) * 1000) :=
  claim_C7.2.2.2.2 0 le_rfl

set_option maxRecDepth 10000 in
set_option maxHeartbeats 2000000 in
/-- C8 (amended): the transcription assembler writes each segment in order as
a block whose index is its 1-based position, with formatted start and end
timecodes and whitespace-trimmed text, serialized as index line, time line,
text and a blank line.  In the two-segment example the time written `1.2` is,
in the program, a float whose exact value is `double_1_2`, slightly below 1.2;
its millisecond field truncates to 199, so the produced output begins with
`00:00:01,199`, not the claimed `00:00:01,200`. -/
theorem claim_C8 :
    (∀ (segments : List Segment) (seg : Segment),
        generate_srt_content (segments ++ [seg]) =
          generate_srt_content segments ++ writeSegment (segments.length + 1) seg) ∧
    generate_srt_content
        [{ start := 0, stop := double_1_2, text := (" Hi ".data) },
         { start := double_1_2, stop := 2, text := ("there".data) }] =
      ("1\n00:00:00,000 --> 00:00:01,199\nHi\n\n2\n00:00:01,199 --> 00:00:02,000\nthere\n\n".data) := by
  constructor
  · intro segments seg
    unfold generate_srt_content
    rw [generateAux_append segments seg 1]
    have h1 : 1 + segments.length = segments.length + 1 := by omega
    rw [h1]
  · have hsplit : generate_srt_content
        [{ start := 0, stop := double_1_2, text := (" Hi ".data) },
         { start := double_1_2, stop := 2, text := ("there".data) }] =
        writeSegment 1 { start := 0, stop := double_1_2, text := (" Hi ".data) } ++
          (writeSegment 2 { start := double_1_2, stop := 2, text := ("there".data) } ++ []) := rfl
    rw [hsplit, writeSegment_hi, writeSegment_there]
    decide

set_option maxRecDepth 10000 in
set_option maxHeartbeats 2000000 in
/-- C8 counterexample: the segment time written `1.2` denotes, in the program,
the IEEE-754 double with exact value 5404319552844595/2^52, slightly below
1.2; its fractional part times 1000 is 199.99999999999994..., truncated to
millisecond field 199 (the one rounded float step of line 180 rounds the
product down, to the same side as the truncation, so exact evaluation of the
float value agrees with the program).  The assembler therefore writes
`00:00:01,199`, and the claimed output beginning with `00:00:01,200` is not
produced. -/
theorem claim_C8_counterexample :
    _format_time double_1_2 = ("00:00:01,199".data) ∧
    generate_srt_content
        [{ start := 0, stop := double_1_2, text := (" Hi ".data) },
         { start := double_1_2, stop := 2, text := ("there".data) }] ≠
      ("1\n00:00:00,000 --> 00:00:01,200\nHi\n\n2\n00:00:01,200 --> 00:00:02,000\nthere\n\n".data) := by
  refine ⟨format_time_double_1_2, ?_⟩
  have hsplit : generate_srt_content
      [{ start := 0, stop := double_1_2, text := (" Hi ".data) },
       { start := double_1_2, stop := 2, text := ("there".data) }] =
      writeSegment 1 { start := 0, stop := double_1_2, text := (" Hi ".data) } ++
        (writeSegment 2 { start := double_1_2, stop := 2, text := ("there".data) } ++ []) := rfl
  rw [hsplit, writeSegment_hi, writeSegment_there]
  decide

/-- C9: for an existing source file whose lines all strip to nothing (an empty
file or one of blank lines only), translation with a configured capability
makes zero translate calls, writes the output file with empty content, and
still returns the output path. -/
theorem claim_C9 (tr : List Char → List Char) (input_path target_language content : List Char)
    (h : ∀ l ∈ fileLines content, pyStrip l = []) :
    translate_subtitles true true tr input_path target_language content =
      { result := some (output_path_for input_path target_language), written := some [] } ∧
    translate_calls tr content = [] := by
  have hb := translate_body_blank tr (fileLines content) h
  have hout : translate_output tr content = [] := by
    unfold translate_output
    rw [hb]
    rfl
  have hcalls : translate_calls tr content = [] := by
    unfold translate_calls
    rw [hb]
    rfl
  have hred : translate_subtitles true true tr input_path target_language content =
      { result := some (output_path_for input_path target_language)
        written := some (translate_output tr content) } := rfl
  rw [hred, hout]
  exact ⟨rfl, hcalls⟩

theorem claim_C9_witness :
    translate_subtitles true true (fun l => l) ("a.srt".data) ("SV".data) ("\n \n".data) =
      { result := some (output_path_for ("a.srt".data) ("SV".data)), written := some [] } ∧
    translate_calls (fun l => l) ("\n \n".data) = [] :=
  claim_C9 (fun l => l) ("a.srt".data) ("SV".data) ("\n \n".data) (by decide)

/-- C10: the concatenation of all chunks yielded by the stream parser equals
the concatenation of all non-blank input lines in their original order: no
non-blank line is dropped or duplicated, and only stripped-empty lines are
discarded. -/
theorem claim_C10 (lines : List (List Char)) :
    (parseStream lines).flatten =
      (lines.filter (fun l => !(pyStrip l).isEmpty)).flatten := by
  have h := parse_foldl_flatten lines { chunks := [], current := [] }
  simp only [List.flatten_nil, List.nil_append] at h
  unfold parseStream
  by_cases hc : (lines.foldl parseLine { chunks := [], current := [] }).current = []
  · rw [if_pos (by simp [List.isEmpty_iff, hc])]
    rw [hc] at h
    simpa using h
  · rw [if_neg (by simp [List.isEmpty_iff, hc])]
    rw [List.flatten_append]
    simpa using h
